import Mathlib

/-!
# Verification of the GitHub orchestrator component (`src/github/github.ts`)

This file shallowly embeds the `GitHub` component of the projen repository
slice and proves the specified properties of its construction, discovery and
workflow-registry operations.

The component-tree substrate (`Component` / `Project` from `../component` and
`../project`) is not part of the slice; it is modelled from the spec: a
project owns an ordered, insertion-order list of components, and every child
component appends itself to that list when constructed.  Component identity is
modelled as the index at which a component was registered in the project's
collection.
-/

/-- Modelled from the spec: options for the external merge-policy child
(`MergifyOptions`); opaque here, only its presence/identity matters. -/
structure MergifyOptions where
  deriving DecidableEq, Repr

/-- Modelled from the spec: options for the external pull-request lint child. -/
structure PullRequestLintOptions where
  deriving DecidableEq, Repr

/-- Modelled from the spec: options for the external auto-approval child.
An "empty object" supplied by the caller is the value `{}` of this type. -/
structure AutoApproveOptions where
  deriving DecidableEq, Repr

/-- Modelled from the spec: options for the external auto-merge configuration. -/
structure AutoMergeOptions where
  deriving DecidableEq, Repr

/-- Modelled from the spec: options for the external stale-handler child. -/
structure StaleOptions where
  deriving DecidableEq, Repr

/-- Modelled from the spec: options for the external dependency-update child. -/
structure DependabotOptions where
  deriving DecidableEq, Repr

/-- The fields of a constructed `GitHub` orchestrator
(`workflowsEnabled`, `projenTokenSecret`, and the retained references to the
`Mergify` and `AutoApprove` children, modelled as indices into the project's
component collection). -/
structure GitHubFields where
  workflowsEnabled : Bool
  projenTokenSecret : String
  mergify : Option Nat
  autoApprove : Option Nat
  deriving DecidableEq, Repr

/-- A node of the project's component collection, tagged with its runtime
type (the discriminator standing for the TypeScript `instanceof` check). -/
inductive ComponentData where
  | github (fields : GitHubFields)
  | mergify (options : Option MergifyOptions)
  | pullRequestLint (options : Option PullRequestLintOptions)
  | autoApprove (options : AutoApproveOptions)
  | stale (options : Option StaleOptions)
  | githubWorkflow (name : String)
  | dependabot (options : Option DependabotOptions)
  | pullRequestTemplate (lines : List String)
  deriving DecidableEq, Repr

/-- The runtime type tags of the component kinds appearing in this slice. -/
inductive ComponentKind where
  | github
  | mergify
  | pullRequestLint
  | autoApprove
  | stale
  | githubWorkflow
  | dependabot
  | pullRequestTemplate
  deriving DecidableEq, Repr

/-- The runtime type of a component (what `instanceof` dispatches on). -/
def ComponentData.kind : ComponentData → ComponentKind
  | .github _ => .github
  | .mergify _ => .mergify
  | .pullRequestLint _ => .pullRequestLint
  | .autoApprove _ => .autoApprove
  | .stale _ => .stale
  | .githubWorkflow _ => .githubWorkflow
  | .dependabot _ => .dependabot
  | .pullRequestTemplate _ => .pullRequestTemplate

/-- Modelled from the spec: a project owns an ordered, insertion-order
collection of components (`project.components`); components are appended on
construction and never removed. -/
structure Project where
  components : List ComponentData
  deriving DecidableEq, Repr

/-- Number of components of a given runtime type registered in the project. -/
def Project.countKind (p : Project) (k : ComponentKind) : Nat :=
  (p.components.filter (fun c => c.kind == k)).length

/-- `GitHubOptions` from `src/github/github.ts`: every field is optional
(`Option`), `none` standing for an omitted key. -/
structure GitHubOptions where
  mergify : Option Bool := none
  mergifyOptions : Option MergifyOptions := none
  workflows : Option Bool := none
  pullRequestLint : Option Bool := none
  pullRequestLintOptions : Option PullRequestLintOptions := none
  projenTokenSecret : Option String := none
  autoApproveOptions : Option AutoApproveOptions := none
  autoMergeOptions : Option AutoMergeOptions := none
  staleOptions : Option StaleOptions := none
  stale : Option Bool := none
  deriving DecidableEq, Repr

/-- The result of running the `GitHub` constructor: the updated project, the
index at which the orchestrator itself was registered, and the orchestrator's
own fields. -/
structure ConstructResult where
  project : Project
  selfIdx : Nat
  github : GitHubFields
  deriving DecidableEq, Repr

/-- The `GitHub` constructor (`src/github/github.ts`, lines 119-140).

Registration order follows the source: `super(project)` registers the
orchestrator itself first, then each enabled branch constructs one child
which self-registers (Mergify, PullRequestLint, AutoApprove, Stale, in that
order).  `options.workflows ?? true` and the other `?? true` defaults become
`Option.getD _ true`.  The `if (options.autoApproveOptions)` truthiness test
is presence (`isSome`): in JavaScript every object, including `{}`, is
truthy, so presence and truthiness coincide for an object-typed key. -/
def GitHub.construct (project : Project) (options : GitHubOptions) :
    ConstructResult :=
  let selfIdx := project.components.length
  let workflowsEnabled := options.workflows.getD true
  let projenTokenSecret := options.projenTokenSecret.getD "PROJEN_GITHUB_TOKEN"
  let mergifyChildren :=
    if options.mergify.getD true then
      [ComponentData.mergify options.mergifyOptions]
    else []
  let mergifyIdx :=
    if options.mergify.getD true then some (selfIdx + 1) else none
  let lintChildren :=
    if options.pullRequestLint.getD true then
      [ComponentData.pullRequestLint options.pullRequestLintOptions]
    else []
  let autoApproveChildren :=
    match options.autoApproveOptions with
    | some o => [ComponentData.autoApprove o]
    | none => []
  let autoApproveIdx :=
    match options.autoApproveOptions with
    | some _ => some (selfIdx + 1 + mergifyChildren.length + lintChildren.length)
    | none => none
  let staleChildren :=
    if options.stale.getD true then [ComponentData.stale options.staleOptions]
    else []
  let fields : GitHubFields :=
    { workflowsEnabled := workflowsEnabled
      projenTokenSecret := projenTokenSecret
      mergify := mergifyIdx
      autoApprove := autoApproveIdx }
  { project :=
      ⟨project.components ++
        ComponentData.github fields ::
          (mergifyChildren ++ lintChildren ++ autoApproveChildren ++
            staleChildren)⟩
    selfIdx := selfIdx
    github := fields }

/-- `project.components.find(isGitHub)` with the position (identity) of each
scanned component threaded through: returns the first component of runtime
type `GitHub` at or after position `i`, in insertion order. -/
def findGitHubFrom : Nat → List ComponentData → Option (Nat × GitHubFields)
  | _, [] => none
  | i, c :: rest =>
    match c with
    | ComponentData.github f => some (i, f)
    | _ => findGitHubFrom (i + 1) rest

/-- `GitHub.of` (`src/github/github.ts`, lines 92-95): scan the project's
component collection in insertion order and return the first component whose
runtime type is `GitHub`, together with its identity (index), or `none`. -/
def GitHub.of (p : Project) : Option (Nat × GitHubFields) :=
  findGitHubFrom 0 p.components

/-- A workflow component as seen through the registry: its identity (the
index at which it was registered in the project) and its `name`. -/
structure GithubWorkflow where
  idx : Nat
  name : String
  deriving DecidableEq, Repr

/-- `components.filter(isWorkflow)` with the position (identity) of each
component threaded through: the workflow-typed components at or after
position `i`, in insertion order. -/
def workflowsFrom : Nat → List ComponentData → List GithubWorkflow
  | _, [] => []
  | i, c :: rest =>
    match c with
    | ComponentData.githubWorkflow n => ⟨i, n⟩ :: workflowsFrom (i + 1) rest
    | _ => workflowsFrom (i + 1) rest

/-- `this.project.components.filter(isWorkflow)`: the workflow-typed
components of the project, in insertion order. -/
def Project.workflowComponents (p : Project) : List GithubWorkflow :=
  workflowsFrom 0 p.components

/-- The comparator of the `workflows` getter,
`(w1, w2) => w1.name.localeCompare(w2.name)`, modelled as lexicographic
string order (which agrees with `localeCompare` on the names considered
here); ECMAScript `Array.prototype.sort` is a stable sort. -/
def workflowLE (w1 w2 : GithubWorkflow) : Bool :=
  decide (w1.name ≤ w2.name)

/-- The `workflows` getter (`src/github/github.ts`, lines 145-151): filter
the live component collection to workflow-typed components and sort the
resulting fresh array ascending by name.  Recomputed from `p` on every
call. -/
def GitHub.workflows (p : Project) : List GithubWorkflow :=
  (p.workflowComponents).mergeSort workflowLE

/-- `GitHub.addWorkflow` (`src/github/github.ts`, lines 158-161): construct a
new workflow child, which self-registers, and return it.  No duplicate-name
check is performed. -/
def GitHub.addWorkflow (p : Project) (name : String) :
    Project × GithubWorkflow :=
  (⟨p.components ++ [ComponentData.githubWorkflow name]⟩,
   ⟨p.components.length, name⟩)

/-- `GitHub.addPullRequestTemplate` (`src/github/github.ts`, lines 163-165):
construct one pull-request-template child with the given lines and return
its identity. -/
def GitHub.addPullRequestTemplate (p : Project) (content : List String) :
    Project × Nat :=
  (⟨p.components ++ [ComponentData.pullRequestTemplate content]⟩,
   p.components.length)

/-- `GitHub.addDependabot` (`src/github/github.ts`, lines 167-169):
construct one dependency-update child and return its identity. -/
def GitHub.addDependabot (p : Project) (options : Option DependabotOptions) :
    Project × Nat :=
  (⟨p.components ++ [ComponentData.dependabot options]⟩,
   p.components.length)

/-- `GitHub.tryFindWorkflow` (`src/github/github.ts`, lines 175-177): the
first workflow of the name-sorted sequence whose name equals `name` exactly,
or `none`. -/
def GitHub.tryFindWorkflow (p : Project) (name : String) :
    Option GithubWorkflow :=
  (GitHub.workflows p).find? fun w => w.name == name

/-- State-threaded form of the `workflows` getter, making the effect on the
project explicit: `Array.prototype.filter` allocates a fresh array and
`Array.prototype.sort` mutates only that fresh array, so the project's
component collection is returned unchanged. -/
def GitHub.workflowsSt (p : Project) : List GithubWorkflow × Project :=
  let fresh := p.workflowComponents
  (fresh.mergeSort workflowLE, p)

/-- State-threaded form of `tryFindWorkflow`. -/
def GitHub.tryFindWorkflowSt (p : Project) (name : String) :
    Option GithubWorkflow × Project :=
  let r := GitHub.workflowsSt p
  (r.1.find? (fun w => w.name == name), r.2)

/-- State-threaded form of `GitHub.of`. -/
def GitHub.ofSt (p : Project) : Option (Nat × GitHubFields) × Project :=
  (GitHub.of p, p)

/-! ## Helper lemmas -/

theorem workflowLE_trans (a b c : GithubWorkflow) (h1 : workflowLE a b)
    (h2 : workflowLE b c) : workflowLE a c := by
  simp only [workflowLE, decide_eq_true_eq] at h1 h2 ⊢
  exact le_trans h1 h2

theorem workflowLE_total (a b : GithubWorkflow) :
    workflowLE a b || workflowLE b a := by
  simp only [workflowLE, Bool.or_eq_true, decide_eq_true_eq]
  exact le_total a.name b.name

theorem workflowsFrom_append (i : Nat) (l1 l2 : List ComponentData) :
    workflowsFrom i (l1 ++ l2) =
      workflowsFrom i l1 ++ workflowsFrom (i + l1.length) l2 := by
  induction l1 generalizing i with
  | nil => simp [workflowsFrom]
  | cons c rest ih =>
    have harith : i + (rest.length + 1) = (i + 1) + rest.length := by omega
    cases c <;>
      simp [workflowsFrom, ih (i + 1), List.length_cons, harith]

theorem findGitHubFrom_eq_none (i : Nat) (l : List ComponentData)
    (h : ∀ c ∈ l, c.kind ≠ ComponentKind.github) :
    findGitHubFrom i l = none := by
  induction l generalizing i with
  | nil => rfl
  | cons c rest ih =>
    have hc := h c (List.mem_cons_self c rest)
    have hrest : ∀ x ∈ rest, x.kind ≠ ComponentKind.github :=
      fun x hx => h x (List.mem_cons_of_mem c hx)
    cases c with
    | github f => exact absurd rfl hc
    | _ => exact ih (i + 1) hrest

theorem findGitHubFrom_append_none (i : Nat) (l1 l2 : List ComponentData)
    (h : findGitHubFrom i l1 = none) :
    findGitHubFrom i (l1 ++ l2) = findGitHubFrom (i + l1.length) l2 := by
  induction l1 generalizing i with
  | nil => simp
  | cons c rest ih =>
    have harith : i + (rest.length + 1) = (i + 1) + rest.length := by omega
    cases c with
    | github f => simp [findGitHubFrom] at h
    | _ =>
      simp only [findGitHubFrom, List.cons_append] at h ⊢
      rw [List.length_cons, harith]
      exact ih (i + 1) h

theorem workflows_perm (p : Project) :
    (GitHub.workflows p).Perm p.workflowComponents :=
  List.mergeSort_perm p.workflowComponents workflowLE

theorem workflows_pairwise (p : Project) :
    (GitHub.workflows p).Pairwise fun a b => a.name ≤ b.name := by
  have h := List.sorted_mergeSort workflowLE_trans workflowLE_total
    p.workflowComponents
  refine h.imp ?_
  intro a b hab
  simpa [workflowLE, decide_eq_true_eq] using hab

theorem workflows_names_sorted (p : Project) :
    ((GitHub.workflows p).map GithubWorkflow.name).Sorted (· ≤ ·) :=
  (workflows_pairwise p).map GithubWorkflow.name fun _ _ h => h

theorem find_first_split {α : Type} (q : α → Bool) (l : List α) (w : α)
    (h : l.find? q = some w) :
    ∃ l1 l2, l = l1 ++ w :: l2 ∧ ∀ x ∈ l1, q x = false := by
  induction l with
  | nil => simp [List.find?] at h
  | cons a rest ih =>
    by_cases ha : q a = true
    · rw [List.find?_cons_of_pos _ ha] at h
      obtain rfl : a = w := Option.some.inj h
      exact ⟨[], rest, rfl, by simp⟩
    · have ha' : q a = false := by simpa using ha
      rw [List.find?_cons_of_neg _ (by simp [ha'])] at h
      obtain ⟨l1, l2, heq, hall⟩ := ih h
      exact ⟨a :: l1, l2, by simp [heq], by
        intro x hx
        rcases List.mem_cons.mp hx with rfl | hx
        · exact ha'
        · exact hall x hx⟩

theorem getElem?_append_plus {α : Type} (l1 l2 : List α) (k : Nat) :
    (l1 ++ l2)[l1.length + k]? = l2[k]? := by
  rw [List.getElem?_append_right (by omega)]
  congr 1
  omega

theorem getElem?_append_one {α : Type} (l1 l2 : List α) :
    (l1 ++ l2)[l1.length + 1]? = l2[1]? := by
  rw [List.getElem?_append_right (by omega)]
  congr 1
  omega

theorem getElem?_append_two {α : Type} (l1 l2 : List α) :
    (l1 ++ l2)[l1.length + 1 + 1]? = l2[2]? := by
  rw [List.getElem?_append_right (by omega)]
  congr 1
  omega

theorem getElem?_append_three {α : Type} (l1 l2 : List α) :
    (l1 ++ l2)[l1.length + 1 + 1 + 1]? = l2[3]? := by
  rw [List.getElem?_append_right (by omega)]
  congr 1
  omega

theorem getElem_append_cons_one {α : Type} (l1 : List α) (x y : α)
    (rest : List α) {h : l1.length + 1 < (l1 ++ x :: y :: rest).length} :
    (l1 ++ x :: y :: rest)[l1.length + 1] = y := by
  have h1 := getElem?_append_one l1 (x :: y :: rest)
  rw [List.getElem?_eq_getElem h] at h1
  simpa using h1

theorem construct_components_shape (p : Project) (options : GitHubOptions) :
    ∃ rest,
      (GitHub.construct p options).project.components =
        p.components ++
          ComponentData.github (GitHub.construct p options).github :: rest :=
  ⟨_, rfl⟩

/-! ## Claim theorems -/

/-- C7: after construction, `workflowsEnabled` equals `options.workflows`
when supplied and `true` otherwise, and `projenTokenSecret` equals
`options.projenTokenSecret` when supplied and `"PROJEN_GITHUB_TOKEN"`
otherwise. -/
theorem construct_fields_defaults (p : Project) (options : GitHubOptions) :
    ((GitHub.construct p options).github.workflowsEnabled
        = options.workflows.getD true) ∧
    ((GitHub.construct p options).github.projenTokenSecret
        = options.projenTokenSecret.getD "PROJEN_GITHUB_TOKEN") ∧
    (∀ b, options.workflows = some b →
      (GitHub.construct p options).github.workflowsEnabled = b) ∧
    (options.workflows = none →
      (GitHub.construct p options).github.workflowsEnabled = true) ∧
    (∀ s, options.projenTokenSecret = some s →
      (GitHub.construct p options).github.projenTokenSecret = s) ∧
    (options.projenTokenSecret = none →
      (GitHub.construct p options).github.projenTokenSecret
        = "PROJEN_GITHUB_TOKEN") := by
  refine ⟨rfl, rfl, ?_, ?_, ?_, ?_⟩
  · intro b h
    simp [GitHub.construct, h]
  · intro h
    simp [GitHub.construct, h]
  · intro s h
    simp [GitHub.construct, h]
  · intro h
    simp [GitHub.construct, h]

/-- Witness for C7 at concrete inputs: supplied values are taken verbatim and
omitted keys fall back to the defaults. -/
theorem construct_fields_defaults_witness :
    ((GitHub.construct ⟨[]⟩
        { workflows := some false,
          projenTokenSecret := some "MY_TOKEN" }).github.workflowsEnabled
      = false) ∧
    ((GitHub.construct ⟨[]⟩ {}).github.projenTokenSecret
      = "PROJEN_GITHUB_TOKEN") :=
  ⟨(construct_fields_defaults ⟨[]⟩
      { workflows := some false,
        projenTokenSecret := some "MY_TOKEN" }).2.2.1 false rfl,
   (construct_fields_defaults ⟨[]⟩ {}).2.2.2.2.2 rfl⟩

/-- C3: an auto-approval child is constructed and retained as `autoApprove`
if and only if the `autoApproveOptions` key is present — presence, not
truthiness, gates construction; an empty options object still enables it,
and omitting the key leaves the field undefined. -/
theorem construct_autoApprove_iff_present (p : Project)
    (options : GitHubOptions) :
    ((GitHub.construct p options).github.autoApprove.isSome
        = options.autoApproveOptions.isSome) ∧
    (options.autoApproveOptions = none →
      (GitHub.construct p options).github.autoApprove = none) ∧
    (∀ o, options.autoApproveOptions = some o →
      ∃ i, (GitHub.construct p options).github.autoApprove = some i ∧
        (GitHub.construct p options).project.components[i]? =
          some (ComponentData.autoApprove o)) := by
  refine ⟨?_, ?_, ?_⟩
  · cases h : options.autoApproveOptions <;> simp [GitHub.construct, h]
  · intro h
    simp [GitHub.construct, h]
  · intro o ho
    have hfield : (GitHub.construct p options).github.autoApprove =
        some (p.components.length + 1 +
          (if options.mergify.getD true then 1 else 0) +
          (if options.pullRequestLint.getD true then 1 else 0)) := by
      cases hm : options.mergify.getD true <;>
        cases hl : options.pullRequestLint.getD true <;>
          simp [GitHub.construct, ho, hm, hl]
    refine ⟨_, hfield, ?_⟩
    cases hm : options.mergify.getD true <;>
      cases hl : options.pullRequestLint.getD true <;>
        simp [GitHub.construct, ho, hm, hl, getElem?_append_one,
          getElem?_append_two, getElem?_append_three, getElem_append_cons_one]

/-- Witness for C3: supplying `autoApproveOptions` as an empty object yields
a defined `autoApprove`; omitting it leaves `autoApprove` undefined. -/
theorem construct_autoApprove_iff_present_witness :
    ((GitHub.construct ⟨[]⟩
        { autoApproveOptions := some {} }).github.autoApprove.isSome
      = true) ∧
    ((GitHub.construct ⟨[]⟩ {}).github.autoApprove = none) :=
  ⟨by
    rw [(construct_autoApprove_iff_present ⟨[]⟩
      { autoApproveOptions := some {} }).1]
    rfl,
   (construct_autoApprove_iff_present ⟨[]⟩ {}).2.1 rfl⟩

/-- C6: if `mergify` is true or omitted, the constructor builds a
merge-policy child with `mergifyOptions` and retains it as the `mergify`
field; if `mergify` is false the field is undefined and no merge-policy
child is constructed even when `mergifyOptions` is supplied. -/
theorem construct_mergify_branch (p : Project) (options : GitHubOptions) :
    ((GitHub.construct p options).github.mergify.isSome
        = options.mergify.getD true) ∧
    (options.mergify.getD true = true →
      ∃ i, (GitHub.construct p options).github.mergify = some i ∧
        (GitHub.construct p options).project.components[i]? =
          some (ComponentData.mergify options.mergifyOptions)) ∧
    (options.mergify = some false →
      (GitHub.construct p options).github.mergify = none ∧
      (GitHub.construct p options).project.countKind ComponentKind.mergify
        = p.countKind ComponentKind.mergify) := by
  refine ⟨?_, ?_, ?_⟩
  · cases hm : options.mergify.getD true <;> simp [GitHub.construct, hm]
  · intro hm
    have hfield : (GitHub.construct p options).github.mergify =
        some (p.components.length + 1) := by
      simp [GitHub.construct, hm]
    refine ⟨_, hfield, ?_⟩
    simp [GitHub.construct, hm, getElem?_append_one, getElem_append_cons_one]
  · intro hm
    constructor
    · simp [GitHub.construct, hm]
    · cases hl : options.pullRequestLint.getD true <;>
        cases ha : options.autoApproveOptions <;>
          cases hs : options.stale.getD true <;>
            simp [GitHub.construct, Project.countKind, hm, hl, ha, hs,
              List.filter_append, ComponentData.kind]

/-- Witness for C6: with `mergify: false` and `mergifyOptions` supplied the
field is undefined and no merge-policy child exists; with `mergify` omitted
the child is built and retained. -/
theorem construct_mergify_branch_witness :
    ((GitHub.construct ⟨[]⟩
        { mergify := some false,
          mergifyOptions := some {} }).github.mergify = none) ∧
    (∃ i, (GitHub.construct ⟨[]⟩ {}).github.mergify = some i ∧
      (GitHub.construct ⟨[]⟩ {}).project.components[i]? =
        some (ComponentData.mergify none)) :=
  ⟨((construct_mergify_branch ⟨[]⟩
      { mergify := some false, mergifyOptions := some {} }).2.2 rfl).1,
   (construct_mergify_branch ⟨[]⟩ {}).2.1 rfl⟩

/-- C5: for every option combination, each enabled switch registers exactly
one child of the corresponding kind during construction and each disabled
switch registers zero children of that kind. -/
theorem construct_child_counts (p : Project) (options : GitHubOptions) :
    ((GitHub.construct p options).project.countKind ComponentKind.mergify
        = p.countKind ComponentKind.mergify
          + (if options.mergify.getD true then 1 else 0)) ∧
    ((GitHub.construct p options).project.countKind
          ComponentKind.pullRequestLint
        = p.countKind ComponentKind.pullRequestLint
          + (if options.pullRequestLint.getD true then 1 else 0)) ∧
    ((GitHub.construct p options).project.countKind ComponentKind.autoApprove
        = p.countKind ComponentKind.autoApprove
          + (if options.autoApproveOptions.isSome then 1 else 0)) ∧
    ((GitHub.construct p options).project.countKind ComponentKind.stale
        = p.countKind ComponentKind.stale
          + (if options.stale.getD true then 1 else 0)) := by
  cases hm : options.mergify.getD true <;>
    cases hl : options.pullRequestLint.getD true <;>
      cases ha : options.autoApproveOptions <;>
        cases hs : options.stale.getD true <;>
          simp [GitHub.construct, Project.countKind, hm, hl, ha, hs,
            List.filter_append, ComponentData.kind]

/-- C2: `of(project)` returns `undefined` on a project with no orchestrator,
and after an orchestrator is constructed it returns exactly that instance
(same identity and same fields), as the first type-filtered match in
insertion order. -/
theorem of_before_after_construct (p : Project) (options : GitHubOptions)
    (h : ∀ c ∈ p.components, c.kind ≠ ComponentKind.github) :
    GitHub.of p = none ∧
    GitHub.of (GitHub.construct p options).project =
      some ((GitHub.construct p options).selfIdx,
        (GitHub.construct p options).github) := by
  have h0 : findGitHubFrom 0 p.components = none :=
    findGitHubFrom_eq_none 0 p.components h
  refine ⟨h0, ?_⟩
  obtain ⟨rest, hshape⟩ := construct_components_shape p options
  show findGitHubFrom 0 (GitHub.construct p options).project.components = _
  rw [hshape, findGitHubFrom_append_none 0 _ _ h0]
  simp only [findGitHubFrom, Nat.zero_add]
  rfl

/-- Witness for C2: on the empty project `of` is `none`; after constructing
an orchestrator with default options it returns that instance. -/
theorem of_before_after_construct_witness :
    GitHub.of ⟨[]⟩ = none ∧
    GitHub.of (GitHub.construct ⟨[]⟩ {}).project =
      some ((GitHub.construct ⟨[]⟩ {}).selfIdx,
        (GitHub.construct ⟨[]⟩ {}).github) :=
  of_before_after_construct ⟨[]⟩ {} (by simp)

theorem string_a_le_b : ("a" : String) ≤ "b" := by
  rw [String.le_iff_toList_le]
  decide

theorem string_b_le_c : ("b" : String) ≤ "c" := by
  rw [String.le_iff_toList_le]
  decide

theorem string_a_le_c : ("a" : String) ≤ "c" := by
  rw [String.le_iff_toList_le]
  decide

theorem abc_sorted : (["a", "b", "c"] : List String).Sorted (· ≤ ·) := by
  simp only [List.sorted_cons, List.mem_cons, List.not_mem_nil]
  refine ⟨?_, ?_, ?_⟩
  · intro b hb
    rcases hb with rfl | rfl | h
    · exact string_a_le_b
    · exact string_a_le_c
    · simp at h
  · intro b hb
    rcases hb with rfl | h
    · exact string_b_le_c
    · simp at h
  · simp

theorem workflows_bac_example :
    ((GitHub.workflows
        (GitHub.addWorkflow
          (GitHub.addWorkflow (GitHub.addWorkflow ⟨[]⟩ "b").1 "a").1
          "c").1).map GithubWorkflow.name) = ["a", "b", "c"] := by
  have hperm1 : ((GitHub.workflows
      (GitHub.addWorkflow
        (GitHub.addWorkflow (GitHub.addWorkflow ⟨[]⟩ "b").1 "a").1
        "c").1).map GithubWorkflow.name).Perm ["b", "a", "c"] := by
    have h := (workflows_perm
      (GitHub.addWorkflow
        (GitHub.addWorkflow (GitHub.addWorkflow ⟨[]⟩ "b").1 "a").1
        "c").1).map GithubWorkflow.name
    simpa [GitHub.addWorkflow, Project.workflowComponents, workflowsFrom]
      using h
  exact List.eq_of_perm_of_sorted
    (hperm1.trans (by decide))
    (workflows_names_sorted _)
    abc_sorted

/-- C1: `workflows` returns exactly the workflow-typed components currently
registered in the project, sorted ascending by name, regardless of the order
in which they were added; adding workflows named "b", "a", "c" in that order
yields names ["a", "b", "c"]. -/
theorem workflows_sorted_registry :
    (∀ p : Project,
      (GitHub.workflows p).Perm p.workflowComponents ∧
      ((GitHub.workflows p).map GithubWorkflow.name).Sorted (· ≤ ·)) ∧
    ((GitHub.workflows
        (GitHub.addWorkflow
          (GitHub.addWorkflow (GitHub.addWorkflow ⟨[]⟩ "b").1 "a").1
          "c").1).map GithubWorkflow.name) = ["a", "b", "c"] :=
  ⟨fun p => ⟨workflows_perm p, workflows_names_sorted p⟩,
   workflows_bac_example⟩

/-- C4: `tryFindWorkflow(name)` returns the first workflow of the
name-sorted sequence whose name equals `name` exactly (case-sensitive), and
`none` (not an error) when no workflow with that name exists. -/
theorem tryFindWorkflow_spec (p : Project) (name : String) :
    ((GitHub.tryFindWorkflow p name).isNone ↔
      ∀ w ∈ GitHub.workflows p, w.name ≠ name) ∧
    (∀ w, GitHub.tryFindWorkflow p name = some w →
      w.name = name ∧
      ∃ l1 l2, GitHub.workflows p = l1 ++ w :: l2 ∧
        ∀ x ∈ l1, x.name ≠ name) := by
  constructor
  · rw [Option.isNone_iff_eq_none, GitHub.tryFindWorkflow,
      List.find?_eq_none]
    constructor
    · intro h w hw
      simpa using h w hw
    · intro h w hw
      simpa using h w hw
  · intro w hw
    simp only [GitHub.tryFindWorkflow] at hw
    have hname : w.name = name := by simpa using List.find?_some hw
    refine ⟨hname, ?_⟩
    obtain ⟨l1, l2, heq, hall⟩ := find_first_split _ _ _ hw
    exact ⟨l1, l2, heq, fun x hx => by simpa using hall x hx⟩

/-- Witness for C4: on a project with one workflow named "ci",
`tryFindWorkflow "ci"` returns it as the first sorted match. -/
theorem tryFindWorkflow_spec_witness :
    (GithubWorkflow.mk 0 "ci").name = "ci" ∧
    ∃ l1 l2,
      GitHub.workflows ⟨[ComponentData.githubWorkflow "ci"]⟩ =
        l1 ++ GithubWorkflow.mk 0 "ci" :: l2 ∧ ∀ x ∈ l1, x.name ≠ "ci" :=
  (tryFindWorkflow_spec ⟨[ComponentData.githubWorkflow "ci"]⟩ "ci").2
    ⟨0, "ci"⟩
    (by simp [GitHub.tryFindWorkflow, GitHub.workflows,
      Project.workflowComponents, workflowsFrom, List.mergeSort])

/-- C9: the `workflows` projection is recomputed from the live component
collection: after `addWorkflow(n)` the next read of `workflows` contains the
newly added workflow, and the projection stays a permutation of the live
filtered component set. -/
theorem workflows_recomputed_live (p : Project) (n : String) :
    ((GitHub.addWorkflow p n).2 ∈
      GitHub.workflows (GitHub.addWorkflow p n).1) ∧
    ((GitHub.workflows (GitHub.addWorkflow p n).1).Perm
      ((GitHub.addWorkflow p n).1.workflowComponents)) ∧
    ((GitHub.addWorkflow p n).1.workflowComponents
      = p.workflowComponents ++ [⟨p.components.length, n⟩]) := by
  have hcomp : (GitHub.addWorkflow p n).1.workflowComponents
      = p.workflowComponents ++ [⟨p.components.length, n⟩] := by
    show workflowsFrom 0 (p.components ++ [ComponentData.githubWorkflow n])
      = _
    rw [workflowsFrom_append]
    simp [workflowsFrom, Project.workflowComponents]
  refine ⟨?_, workflows_perm _, hcomp⟩
  have hmem : (GitHub.addWorkflow p n).2 ∈
      (GitHub.addWorkflow p n).1.workflowComponents := by
    rw [hcomp]
    simp [GitHub.addWorkflow]
  exact List.mem_mergeSort.mpr hmem

/-- C10: reading `workflows`, `tryFindWorkflow` or `of` leaves the project's
component collection unchanged: the sort operates on the freshly filtered
array, so the insertion order of the underlying collection is preserved
across queries. -/
theorem queries_leave_project_unchanged (p : Project) (n : String) :
    ((GitHub.workflowsSt p).2 = p) ∧
    ((GitHub.tryFindWorkflowSt p n).2 = p) ∧
    ((GitHub.ofSt p).2 = p) ∧
    ((GitHub.workflowsSt p).1 = GitHub.workflows p) ∧
    ((GitHub.tryFindWorkflowSt p n).1 = GitHub.tryFindWorkflow p n) ∧
    ((GitHub.workflowsSt p).2.workflowComponents = p.workflowComponents) :=
  ⟨rfl, rfl, rfl, rfl, rfl, rfl⟩

theorem workflows_three_a :
    GitHub.workflows ⟨[ComponentData.githubWorkflow "a",
        ComponentData.githubWorkflow "a", ComponentData.githubWorkflow "a"]⟩
      = [⟨0, "a"⟩, ⟨1, "a"⟩, ⟨2, "a"⟩] := by
  have haa : ((['a'] : List Char) ≤ ['a']) = True := eq_true (by decide)
  simp [GitHub.workflows, Project.workflowComponents, workflowsFrom,
    List.mergeSort, List.merge, workflowLE, haa]

/-- C8: `addWorkflow(name)` registers a new workflow child unconditionally,
with no duplicate-name check: two calls with the same name (and likewise two
`addDependabot()` calls) register two independent children, and neither call
raises; duplicate-named workflows appear adjacently in the sorted registry. -/
theorem addWorkflow_no_duplicate_check (p : Project) (name : String)
    (options : Option DependabotOptions) :
    ((GitHub.addWorkflow p name).2.idx ≠
      (GitHub.addWorkflow (GitHub.addWorkflow p name).1 name).2.idx) ∧
    ((GitHub.addWorkflow p name).2.name = name) ∧
    ((GitHub.addWorkflow (GitHub.addWorkflow p name).1 name).2.name
      = name) ∧
    ((GitHub.addWorkflow p name).2 ∈ GitHub.workflows
      (GitHub.addWorkflow (GitHub.addWorkflow p name).1 name).1) ∧
    ((GitHub.addWorkflow (GitHub.addWorkflow p name).1 name).2 ∈
      GitHub.workflows
        (GitHub.addWorkflow (GitHub.addWorkflow p name).1 name).1) ∧
    (((GitHub.workflows
          (GitHub.addWorkflow (GitHub.addWorkflow p name).1 name).1).filter
        (fun w => w.name == name)).length
      = ((GitHub.workflows p).filter (fun w => w.name == name)).length
          + 2) ∧
    ((GitHub.addDependabot p options).2 ≠
      (GitHub.addDependabot
        (GitHub.addDependabot p options).1 options).2) ∧
    ((GitHub.addDependabot
        (GitHub.addDependabot p options).1 options).1.countKind
          ComponentKind.dependabot
      = p.countKind ComponentKind.dependabot + 2) ∧
    (∀ q : Project, ∀ i j k : Nat, ∀ hij : i ≤ j, ∀ hjk : j ≤ k,
      ∀ hk : k < (GitHub.workflows q).length,
      ((GitHub.workflows q).get ⟨i, by omega⟩).name
          = ((GitHub.workflows q).get ⟨k, hk⟩).name →
        ((GitHub.workflows q).get ⟨j, by omega⟩).name
          = ((GitHub.workflows q).get ⟨k, hk⟩).name) := by
  have hP2 : (GitHub.addWorkflow
      (GitHub.addWorkflow p name).1 name).1.workflowComponents
      = p.workflowComponents ++
        [⟨p.components.length, name⟩, ⟨p.components.length + 1, name⟩] := by
    show workflowsFrom 0 ((p.components ++ [ComponentData.githubWorkflow name])
      ++ [ComponentData.githubWorkflow name]) = _
    rw [workflowsFrom_append, workflowsFrom_append]
    simp [workflowsFrom, Project.workflowComponents]
  refine ⟨?_, rfl, ?_, ?_, ?_, ?_, ?_, ?_, ?_⟩
  · simp [GitHub.addWorkflow]
  · simp [GitHub.addWorkflow]
  · refine List.mem_mergeSort.mpr ?_
    rw [hP2]
    simp [GitHub.addWorkflow]
  · refine List.mem_mergeSort.mpr ?_
    rw [hP2]
    simp [GitHub.addWorkflow]
  · have hflt2 := ((workflows_perm
      (GitHub.addWorkflow (GitHub.addWorkflow p name).1 name).1).filter
        (fun w => w.name == name)).length_eq
    have hflt0 := ((workflows_perm p).filter
      (fun w => w.name == name)).length_eq
    rw [hflt2, hflt0, hP2]
    simp [List.filter_append]
  · simp [GitHub.addDependabot]
  · show Project.countKind
      ⟨(p.components ++ [ComponentData.dependabot options])
        ++ [ComponentData.dependabot options]⟩ ComponentKind.dependabot = _
    simp [Project.countKind, List.filter_append, ComponentData.kind]
  · intro q i j k hij hjk hk hik
    have hs := workflows_names_sorted q
    have h1 := hs.rel_get_of_le
      (a := (⟨i, by simpa using by omega⟩ :
        Fin ((GitHub.workflows q).map GithubWorkflow.name).length))
      (b := ⟨j, by simpa using by omega⟩)
      (by simpa using hij)
    have h2 := hs.rel_get_of_le
      (a := (⟨j, by simpa using by omega⟩ :
        Fin ((GitHub.workflows q).map GithubWorkflow.name).length))
      (b := ⟨k, by simpa using hk⟩)
      (by simpa using hjk)
    simp only [List.get_eq_getElem, List.getElem_map] at h1 h2
    simp only [List.get_eq_getElem] at hik ⊢
    exact le_antisymm h2 (hik ▸ h1)

/-- Witness for C8 at concrete inputs: two same-named `addWorkflow` calls
yield distinct identities, two `addDependabot` calls register two children,
and in a registry of three workflows all named "a" the middle entry's name
matches its neighbours. -/
theorem addWorkflow_no_duplicate_check_witness :
    ((GitHub.addWorkflow ⟨[]⟩ "ci").2.idx ≠
      (GitHub.addWorkflow (GitHub.addWorkflow ⟨[]⟩ "ci").1 "ci").2.idx) ∧
    ((GitHub.addDependabot
        (GitHub.addDependabot ⟨[]⟩ none).1 none).1.countKind
          ComponentKind.dependabot = 2) ∧
    (((GitHub.workflows ⟨[ComponentData.githubWorkflow "a",
          ComponentData.githubWorkflow "a",
          ComponentData.githubWorkflow "a"]⟩).get
        ⟨1, by simp [workflows_three_a]⟩).name
      = ((GitHub.workflows ⟨[ComponentData.githubWorkflow "a",
          ComponentData.githubWorkflow "a",
          ComponentData.githubWorkflow "a"]⟩).get
        ⟨2, by simp [workflows_three_a]⟩).name) := by
  refine ⟨(addWorkflow_no_duplicate_check ⟨[]⟩ "ci" none).1, ?_, ?_⟩
  · have h :=
      (addWorkflow_no_duplicate_check ⟨[]⟩ "ci" none).2.2.2.2.2.2.2.1
    simpa [Project.countKind] using h
  · exact (addWorkflow_no_duplicate_check ⟨[]⟩ "ci" none).2.2.2.2.2.2.2.2
      ⟨[ComponentData.githubWorkflow "a", ComponentData.githubWorkflow "a",
        ComponentData.githubWorkflow "a"]⟩ 0 1 2 (by omega) (by omega)
      (by simp [workflows_three_a])
      (by simp [workflows_three_a])
